import Mathlib

/-!
Verification development for the MTG card converter repository
(src/card_processing.py, src/data_processing.py, src/scryfall_api.py,
src/config.py).  The Python code is shallowly embedded: dict-shaped rows
become structures, dicts become association lists with first-key lookup,
stateful functions thread an explicit state value, network calls become
oracle parameters, and fallible code (Python exceptions) returns Option.
The rapidfuzz string-similarity base `fuzz.ratio` is abstracted as a
function parameter `sim`; all theorems about the scorer hold for every
such function, and concrete evaluations instantiate it at inputs where
the true value of fuzz.ratio is forced (equal strings score exactly 100).
Unicode NFKD accent folding (`unicodedata.normalize('NFKD', ...)`) is
modelled by a character-wise decomposition table covering the Latin-1
accented letters, identity elsewhere.
-/

namespace CardConv

/-! ## Python string primitives -/

/-- Python whitespace for `str.strip()` (ASCII subset). -/
def isPyWs (c : Char) : Bool :=
  c = ' ' || c = '\t' || c = '\n' || c = '\r' || c = Char.ofNat 11 || c = Char.ofNat 12

/-- Model of Python `str.strip()`. -/
def pyStrip (s : String) : String :=
  String.mk (((s.toList.dropWhile isPyWs).reverse.dropWhile isPyWs).reverse)

/-- Whether `p` is a prefix of `l`. -/
def startsWithL (p l : List Char) : Bool :=
  match p, l with
  | [], _ => true
  | _ :: _, [] => false
  | c :: ps, d :: ls => c = d && startsWithL ps ls

/-- Whether `pat` occurs as a contiguous sublist of `l`. -/
def containsSub (pat : List Char) : List Char → Bool
  | [] => startsWithL pat []
  | c :: cs => startsWithL pat (c :: cs) || containsSub pat cs

/-- Model of the Python substring test `a in b`. -/
def pyIn (a b : String) : Bool :=
  containsSub a.toList b.toList

/-- The prefix of `l` before the first occurrence of `pat`, or all of `l`
when `pat` does not occur: models `s.split(pat)[0]` for non-empty `pat`. -/
def beforeFirst (pat : List Char) : List Char → List Char
  | [] => []
  | c :: cs => if startsWithL pat (c :: cs) then [] else c :: beforeFirst pat cs

/-- Left-to-right non-overlapping replacement of `pat` by `rep`, recursing
structurally on a fuel counter so the kernel can evaluate it; each step
consumes at least one character, so fuel `l.length` always suffices. -/
def replaceSubFuel (pat rep : List Char) : Nat → List Char → List Char
  | 0, l => l
  | _ + 1, [] => []
  | fuel + 1, c :: cs =>
    if startsWithL pat (c :: cs) && pat.length ≠ 0 then
      rep ++ replaceSubFuel pat rep fuel ((c :: cs).drop pat.length)
    else c :: replaceSubFuel pat rep fuel cs

/-- Models Python `str.replace(pat, rep)` for non-empty `pat`. -/
def replaceSub (pat rep l : List Char) : List Char :=
  replaceSubFuel pat rep l.length l

/-- Model of Python `str.lower()` (ASCII case folding). -/
def pyLower (s : String) : String := String.mk (s.toList.map Char.toLower)

/-- Model of Python `str.replace(pat, rep)`. -/
def pyReplace (s pat rep : String) : String :=
  String.mk (replaceSub pat.toList rep.toList s.toList)

/-- Model of Python `sep.join(l)`. -/
def joinSep (sep : String) : List String → String
  | [] => ""
  | [x] => x
  | x :: y :: xs => x ++ sep ++ joinSep sep (y :: xs)

/-- Split a character list at every character satisfying `p`, keeping empty
segments, as Python `str.split(sep)` does for a one-character separator. -/
def splitOnP (p : Char → Bool) : List Char → List (List Char)
  | [] => [[]]
  | c :: cs =>
    let r := splitOnP p cs
    if p c then [] :: r
    else
      match r with
      | [] => [[c]]
      | h :: t => (c :: h) :: t

/-- Model of Python `str.split()` (no argument): split on whitespace runs,
dropping empty segments. -/
def pyWords (s : String) : List String :=
  ((splitOnP isPyWs s.toList).filter (fun l => l ≠ [])).map String.mk

/-- Model of Python `str.title()`: uppercase every letter that follows a
non-letter, lowercase the rest. -/
def pyTitleAux : Bool → List Char → List Char
  | _, [] => []
  | prevAlpha, c :: cs =>
    let c2 := if c.isAlpha then (if prevAlpha then c.toLower else c.toUpper) else c
    c2 :: pyTitleAux c.isAlpha cs

def pyTitle (s : String) : String := String.mk (pyTitleAux false s.toList)

/-- Base-10 value of a digit list. -/
def digitsToNat (l : List Char) : Nat :=
  l.foldl (fun a c => a * 10 + (c.toNat - '0'.toNat)) 0

/-- Model of Python `int(...)` on the string forms appearing in CSV
quantity fields (optional sign, decimal digits, surrounding whitespace);
`none` models a raised `ValueError`. -/
def pyInt? (s : String) : Option Int :=
  let l := (pyStrip s).toList
  let signed : Int × List Char :=
    match l with
    | '-' :: t => (-1, t)
    | '+' :: t => (1, t)
    | _ => (1, l)
  if signed.2 ≠ [] && signed.2.all Char.isDigit then
    some (signed.1 * digitsToNat signed.2)
  else none

/-- Value of a digit list read in base 10, as a rational. -/
def digitsVal (l : List Char) : ℚ :=
  l.foldl (fun acc c => acc * 10 + (c.toNat - '0'.toNat : ℕ)) 0

/-- Model of Python `float(...)` on plain decimal literals (optional sign,
digits, optional fractional part); `none` models a raised `ValueError`.
Exponent forms, `inf` and `nan` do not occur in the price fields. -/
def pyFloat? (s : String) : Option ℚ :=
  let l := s.toList
  let signed : ℚ × List Char :=
    match l with
    | '-' :: t => (-1, t)
    | '+' :: t => (1, t)
    | _ => (1, l)
  let ip := signed.2.takeWhile Char.isDigit
  let rest := signed.2.dropWhile Char.isDigit
  match rest with
  | [] => if ip = [] then none else some (signed.1 * digitsVal ip)
  | '.' :: frac =>
    if frac.all Char.isDigit && (ip ≠ [] || frac ≠ []) then
      some (signed.1 * (digitsVal ip + digitsVal frac / (10 : ℚ) ^ frac.length))
    else none
  | _ => none

/-! ## Association lists as Python dicts -/

/-- First-match lookup in an association list (Python dict read). -/
def alookup {α β : Type} [DecidableEq α] (a : α) : List (α × β) → Option β
  | [] => none
  | (x, b) :: t => if x = a then some b else alookup a t

/-- Python dict assignment `d[a] = b`: update the existing binding in place,
else append. -/
def dictInsert {α β : Type} [DecidableEq α] (l : List (α × β)) (a : α) (b : β) :
    List (α × β) :=
  if (alookup a l).isSome then l.map (fun p => if p.1 = a then (a, b) else p)
  else l ++ [(a, b)]

/-! ## Accent folding (data_processing.remove_accents) -/

/-- Base letter of the Latin-1 accented letters (NFKD first component). -/
def accentBase? (c : Char) : Option Char :=
  match c with
  | 'á' | 'à' | 'â' | 'ä' | 'ã' | 'å' => some 'a'
  | 'é' | 'è' | 'ê' | 'ë' => some 'e'
  | 'í' | 'ì' | 'î' | 'ï' => some 'i'
  | 'ó' | 'ò' | 'ô' | 'ö' | 'õ' => some 'o'
  | 'ú' | 'ù' | 'û' | 'ü' => some 'u'
  | 'ý' | 'ÿ' => some 'y'
  | 'ñ' => some 'n'
  | 'ç' => some 'c'
  | 'Á' | 'À' | 'Â' | 'Ä' | 'Ã' | 'Å' => some 'A'
  | 'É' | 'È' | 'Ê' | 'Ë' => some 'E'
  | 'Í' | 'Ì' | 'Î' | 'Ï' => some 'I'
  | 'Ó' | 'Ò' | 'Ô' | 'Ö' | 'Õ' => some 'O'
  | 'Ú' | 'Ù' | 'Û' | 'Ü' => some 'U'
  | 'Ý' => some 'Y'
  | 'Ñ' => some 'N'
  | 'Ç' => some 'C'
  | _ => none

/-- Character-wise NFKD decomposition model: an accented letter becomes its
base letter followed by a combining mark; everything else is unchanged. -/
def nfkdChar (c : Char) : List Char :=
  match accentBase? c with
  | some b => [b, Char.ofNat 0x301]
  | none => [c]

def isCombiningMark (c : Char) : Bool :=
  0x300 ≤ c.toNat && c.toNat ≤ 0x36F

/-- Embedding of `remove_accents`: NFKD-decompose, drop combining marks. -/
def removeAccents (s : String) : String :=
  String.mk (((s.toList.map nfkdChar).flatten).filter (fun c => !isCombiningMark c))

/-! ## Data model -/

/-- The 5-field identity key produced by `normalize_key` and used to key the
reference pool: (name, set, number-or-absent, condition, display suffix).
The number is `Option String`: `none` models Python `None`. -/
structure Key5 where
  name : String
  set : String
  num : Option String
  cond : String
  suffix : String
deriving DecidableEq, Repr

/-- The 4-field form `normalized_result[:4]` used for the confirmed-match
cache and the pending queue. -/
structure Key4 where
  name : String
  set : String
  num : Option String
  cond : String
deriving DecidableEq, Repr

def Key5.toKey4 (k : Key5) : Key4 := ⟨k.name, k.set, k.num, k.cond⟩

/-- A reference-catalog row (TCGplayer CSV record), restricted to the fields
the embedded code reads.  Fields absent from a row (e.g. the price columns
of a synthesized entry) are the empty string, matching `dict.get(f, "")`. -/
structure Entry where
  tcgplayerId : String := ""
  productLine : String := ""
  setName : String := ""
  productName : String := ""
  number : String := ""
  rarity : String := ""
  condition : String := ""
  addToQuantity : Int := 0
  tcgMarketplacePrice : String := ""
  listPrice : String := ""
  retailPrice : String := ""
deriving DecidableEq, Repr

/-- The reference pool `ref_data` / `card_database`: a dict keyed by `Key5`. -/
abbrev RefData := List (Key5 × Entry)

/-- A ManaBox inventory row, restricted to the fields the embedded code
reads, with the dict-get defaults of the source. -/
structure ManaboxRow where
  scryfallId : String := ""
  quantity : String := "1"
  purchasePrice : String := ""
  collectorNumber : String := ""
deriving DecidableEq, Repr

/-- A Scryfall card record, restricted to the fields the embedded code
reads, with the dict-get defaults of the source. -/
structure ScryCard where
  name : String := ""
  set_name : String := ""
  collector_number : String := ""
  rarity : String := ""
  promo : Bool := false
  promo_types : List String := []
deriving DecidableEq, Repr

/-! ## Configuration constants (config.py) -/

def highConfidenceScore : Int := 270
def mediumConfidenceScore : Int := 260
def scryfallScore : Int := 350
def tokenScore : Int := 250
def scoreDifferenceThreshold : Int := 30

def defaultScryfallId : String := "Scryfall Verified"
def defaultTcgplayerId : String := "Not Found"
def defaultProductLine : String := "Magic: The Gathering"

/-- `condition_rank` from config.py. -/
def conditionRank : List (String × Int) :=
  [("near mint", 0), ("lightly played", 1), ("moderately played", 2),
   ("heavily played", 3), ("damaged", 4)]

/-- `SPECIAL_PRINT_PENALTIES` from config.py, in dict insertion order. -/
def specialPrintPenalties : List (String × Int) :=
  [("foil", 40), ("showcase", 30), ("etched", 30), ("borderless", 30),
   ("extended", 30), ("gilded", 30)]

/-- `SET_ALIAS` from config.py. -/
def setAlias : List (String × String) :=
  [("Universes Beyond: The Lord of the Rings: Tales of Middle-earth", "LTR"),
   ("Commander: The Lord of the Rings: Tales of Middle-earth", "LTC"),
   ("the list", "The List"),
   ("edge of eternities", "eoe"),
   ("EOE", "eoe")]

/-! ## Key normalization (data_processing.normalize_key) -/

/-- Characters kept by `re.sub(r"[^a-zA-Z0-9 ,'-]", "", ...)` on names. -/
def isNameChar (c : Char) : Bool :=
  c.isAlpha || c.isDigit || c = ' ' || c = ',' || c = Char.ofNat 39 || c = '-'

/-- Characters kept by `re.sub(r"[^a-zA-Z0-9 ]", "", ...)` on set names. -/
def isSetChar (c : Char) : Bool :=
  c.isAlpha || c.isDigit || c = ' '

/-- Characters kept by `re.sub(r"[^\d\-]", "", ...)` on numbers. -/
def isNumChar (c : Char) : Bool :=
  c.isDigit || c = '-'

/-- Non-greedy removal of parenthesized spans, modelling
`re.sub(r"\(.*?\)", "", s)`: each `(` paired with the nearest following `)`
(with no intervening newline) is removed together with the span between. -/
def stripParensAux : List Char → List Char
  | [] => []
  | c :: cs =>
    if c = '(' then
      let pre := cs.takeWhile (fun d => d ≠ ')' && d ≠ '\n')
      let rest := cs.drop pre.length
      match h : rest with
      | ')' :: tail =>
        have : tail.length < cs.length + 1 := by
          have h1 : rest.length ≤ cs.length := by
            simp only [rest, List.length_drop]; omega
          have h2 : rest.length = tail.length + 1 := by rw [h]; simp
          omega
        stripParensAux tail
      | _ => c :: stripParensAux cs
    else c :: stripParensAux cs
termination_by l => l.length

/-- Lines 48-49 of data_processing.py: strip parenthetical annotations when
both a `(` and a `)` occur in the name. -/
def pyRemoveParens (s : String) : String :=
  if pyIn "(" s && pyIn ")" s then pyStrip (String.mk (stripParensAux s.toList))
  else s

/-- The normalized set name as computed by lines 55-59 of
data_processing.py, including the collapse of the two reprint-list
spellings into "the list reprints". -/
def normalizedSetOf (set_name : String) : String :=
  let s := pyLower (pyStrip (String.mk ((removeAccents set_name).toList.filter isSetChar)))
  if s = "plst" || s = "the list" then "the list reprints" else s

/-- Embedding of `normalize_key` (data_processing.py lines 46-71). -/
def normalizeKey (card_name set_name condition number : String) : Option Key5 :=
  let n1 := pyRemoveParens card_name
  let n2 := removeAccents n1
  let n3 := pyStrip (String.mk (beforeFirst "//".toList n2.toList))
  let nName := pyLower (pyStrip (String.mk (n3.toList.filter isNameChar)))
  let nSet := normalizedSetOf set_name
  if pyIn "prerelease cards" nSet then none
  else
    let number1 :=
      if nSet = "the list" then
        (if number ≠ "" then String.mk ((splitOnP (· = '-') number.toList).getLastD []) else "")
      else number
    let nNum0 : Option String :=
      if number1 ≠ "" then some (String.mk ((pyStrip number1).toList.filter isNumChar))
      else none
    let nNum := if nNum0 = some "" then none else nNum0
    some ⟨nName, nSet, nNum, pyLower condition, ""⟩

/-! ## Collector-number extraction (card_processing.extract_card_number) -/

/-- Embedding of `extract_card_number`: strip the raw collector number,
take the part after the last `-` (via `split("-")[-1]`), then drop the
leading run of letters and hyphens (`re.sub(r"^[A-Za-z\-]*", "", ...)`). -/
def extractCardNumber (raw : String) : String :=
  let t := pyStrip raw
  String.mk (((splitOnP (· = '-') t.toList).getLastD []).dropWhile
    (fun c => c.isAlpha || c = '-'))

/-- Modelled from the spec: "the segment of the raw collector number after
its last hyphen with any leading letters and hyphens stripped" — the
longest hyphen-free suffix (of the whitespace-stripped number), with the
leading run of letters and hyphens removed.  Used to compare the source
computation against the claim wording. -/
def segmentAfterLastHyphen (raw : String) : String :=
  let t := pyStrip raw
  let seg := (t.toList.reverse.takeWhile (fun c => c ≠ '-')).reverse
  String.mk (seg.dropWhile (fun c => c.isAlpha || c = '-'))

/-! ## Candidate scoring (data_processing.find_best_match)

The rapidfuzz similarity `fuzz.ratio` is abstracted as the parameter `sim`.
One candidate of the pool is processed exactly as in the source loop body
(lines 78-128); the result records the candidate's contribution to the
exact-number list (the score at the moment of the append, line 100) and to
the fuzzy list (the final score, line 128), `none` meaning "not appended"
(a `continue`). -/

/-- Python truthiness of the number field (`None` and `""` are falsy). -/
def optTruthy : Option String → Bool
  | none => false
  | some s => s ≠ ""

/-- First-letter pruning, line 79: both names non-empty and differing in
their first character. -/
def namePruned (qn rn : String) : Bool :=
  qn ≠ "" && rn ≠ "" && qn.toList.headD ' ' ≠ rn.toList.headD ' '

/-- Token pruning, lines 82-89: single-word names must match exactly;
multi-word names must share at least one token. -/
def wordPruned (qn rn : String) : Bool :=
  let qw := pyWords qn
  let rw := pyWords rn
  if qw.length = 1 && rw.length = 1 then qw.headD "" ≠ rw.headD ""
  else if qw.length > 1 && rw.length > 1 then qw.all (fun w => !rw.contains w)
  else false

/-- Condition scoring, lines 104-116. -/
def condScore (qc rc : String) : Int :=
  let c1 := pyStrip (pyReplace qc "foil" "")
  let c2 := pyStrip (pyReplace rc "foil" "")
  match alookup c1 conditionRank, alookup c2 conditionRank with
  | some r1, some r2 =>
    if r1 = r2 then 50 else if (r1 - r2).natAbs = 1 then -10 else -30
  | _, _ => if qc ≠ rc then -20 else 0

/-- Special-print penalties, lines 122-126: subtract each term's penalty
when exactly one of the two condition strings contains the term. -/
def specialAdjust (qc rc : String) : Int :=
  specialPrintPenalties.foldl
    (fun acc tp => if pyIn tp.1 qc ≠ pyIn tp.1 rc then acc - tp.2 else acc) 0

/-- The pre-release candidate test of lines 118-119. -/
def prerelCand (e : Entry) : Bool :=
  pyIn "prerelease" (pyLower e.productName) || pyIn "prerelease cards" (pyLower e.setName)

/-- One iteration of the `find_best_match` loop for candidate key `k` with
row `e`.  Returns (exact-number contribution, fuzzy contribution). -/
def processCandidate (sim : String → String → Int) (q : Key4) (k : Key5) (e : Entry) :
    Option Int × Option Int :=
  if namePruned q.name k.name then (none, none)
  else if wordPruned q.name k.name then (none, none)
  else
    let s0 := sim q.name k.name
    let s1 := s0 + (if pyIn q.name k.name || pyIn k.name q.name then 20 else 0)
    let s2 := s1 + (if q.set = k.set then 50 else 0)
    let exactC : Option Int :=
      if !optTruthy q.num || !optTruthy k.num then none
      else if q.num = k.num then some (s2 + 100) else none
    let s3 :=
      if !optTruthy q.num || !optTruthy k.num then s2 + 50
      else if q.num = k.num then s2 + 100 else s2 - 15
    let s4 := s3 + condScore q.cond k.cond
    if prerelCand e then (exactC, none)
    else (exactC, some (s4 + specialAdjust q.cond k.cond))

/-- Stable insertion of a scored candidate into a descending list: `x` goes
before the first strictly lower score, after earlier equal scores. -/
def insertDesc (x : Key5 × Int) : List (Key5 × Int) → List (Key5 × Int)
  | [] => [x]
  | y :: ys => if y.2 ≤ x.2 then x :: y :: ys else y :: insertDesc x ys

/-- Stable descending sort by score: the semantics of Python
`list.sort(key=lambda x: x[1], reverse=True)`. -/
def sortDesc : List (Key5 × Int) → List (Key5 × Int)
  | [] => []
  | x :: xs => insertDesc x (sortDesc xs)

/-- Embedding of `find_best_match` (lines 74-137), as invoked in the source:
`card_database` and `ref_data` are the same dict (card_processing.py line
164), so the pool appears once.  The exact-number tier replaces the fuzzy
tier when non-empty; the chosen tier is sorted stably by descending score
(Python `list.sort(key=..., reverse=True)`). -/
def findBestMatch (sim : String → String → Int) (q : Key4) (db : RefData) :
    List (Key5 × Int) :=
  let results := db.map (fun kv => (kv.1, processCandidate sim q kv.1 kv.2))
  let exacts := results.filterMap (fun r => r.2.1.map (fun s => (r.1, s)))
  let fuzz := results.filterMap (fun r => r.2.2.map (fun s => (r.1, s)))
  let chosen := if exacts.isEmpty then fuzz else exacts
  sortDesc chosen

/-- Claim-side predicate: the candidate survives the name prunes and has a
collector number that is present on both sides and equal to the query's
(the condition under which the source reaches the exact-number bonus of
line 99-100). -/
def exactNumberMatch (q : Key4) (k : Key5) : Bool :=
  !namePruned q.name k.name && !wordPruned q.name k.name &&
    optTruthy q.num && optTruthy k.num && q.num = k.num

/-- A fixed similarity function used for concrete evaluations: equal strings
score 100 — the exact value rapidfuzz `fuzz.ratio` takes on equal strings —
and the concrete pools below only ever compare equal names. -/
def simIfEq (s t : String) : Int := if s = t then 100 else 0

/-! ## Output merging (data_processing.merge_entries) -/

/-- The merge key of line 201: the ('TCGplayer Id', 'Condition') pair. -/
def mergeKey (e : Entry) : String × String := (e.tcgplayerId, e.condition)

/-- One step of the merge loop: accumulate `c` into the keyed dict,
summing 'Add to Quantity' on a key hit (line 203), inserting otherwise. -/
def mergeInsert (acc : List Entry) (c : Entry) : List Entry :=
  if acc.any (fun e => mergeKey e = mergeKey c) then
    acc.map (fun e =>
      if mergeKey e = mergeKey c then
        { e with addToQuantity := e.addToQuantity + c.addToQuantity }
      else e)
  else acc ++ [c]

/-- Embedding of `merge_entries` (lines 198-206): the dict's values in
insertion order. -/
def mergeEntries (cards : List Entry) : List Entry :=
  cards.foldl mergeInsert []

/-! ## Scryfall query (scryfall_api.query_scryfall_card)

HTTP requests are modelled by oracle values: `raised` is a transport-level
exception, `resp status body` a response whose JSON body parses to `body`
(`none` modelling a parse exception).  The rate limiter (`adaptive_rate_limit`,
`handle_rate_limit_response`) only sleeps, prints and updates timing
globals, so it is elided.  The third component of the result counts the
remote requests issued by the call. -/

inductive HttpResult (β : Type) where
  | raised : HttpResult β
  | resp : Nat → Option β → HttpResult β
deriving DecidableEq, Repr

/-- The parsed body of a `/cards/search` response: `total_cards` and `data`
with the dict-get defaults of lines 121-122. -/
structure SearchData where
  total_cards : Nat := 0
  data : List ScryCard := []
deriving DecidableEq, Repr

/-- The process-lifetime cache `scryfall_cache`, restricted to the keys
used by `query_scryfall_card`; a stored `none` is Python `None`. -/
abbrev ScryCache := List (String × Option ScryCard)

/-- The cache key of line 93: `f"{card_name}|{set_code}|{collector_number or ''}"`. -/
def scryCacheKey (card_name set_code : String) (num : Option String) : String :=
  card_name ++ "|" ++ set_code ++ "|" ++ num.getD ""

/-- The search half of `query_scryfall_card` (lines 111-136): issue the
`/cards/search` request and cache the outcome; every failure path — a
raised exception, a non-200 status, a parse failure, a no-match result,
and the IndexError on an empty `data` list — stores `None`. -/
def queryScrySearchStep (searchResp : HttpResult SearchData) (card_name key : String)
    (cache : ScryCache) (n : Nat) : Option ScryCard × ScryCache × Nat :=
  let fin := fun (v : Option ScryCard) => (v, dictInsert cache key v, n + 1)
  match searchResp with
  | .raised => fin none
  | .resp st body =>
    if st = 200 then
      match body with
      | none => fin none
      | some sd =>
        if 0 < sd.total_cards then
          match sd.data.find? (fun c => pyLower c.name = pyLower card_name) with
          | some c => fin (some c)
          | none =>
            match sd.data with
            | [] => fin none
            | c0 :: _ => fin (some c0)
        else fin none
    else fin none

/-- Embedding of `query_scryfall_card` (lines 92-136).  A cached key — hit
or stored failure — returns immediately with no request.  With a truthy
collector number the `/cards/{set}/{num}` endpoint is tried first; on a
200 its card is cached and returned, on a raised exception `None` is
cached (the whole body is one `try`), and on any other status the search
endpoint is consulted. -/
def queryScryfallCard (collectorResp : HttpResult ScryCard)
    (searchResp : HttpResult SearchData) (card_name set_code : String)
    (collector_number : Option String) (cache : ScryCache) :
    Option ScryCard × ScryCache × Nat :=
  let key := scryCacheKey card_name set_code collector_number
  match alookup key cache with
  | some v => (v, cache, 0)
  | none =>
    if optTruthy collector_number then
      match collectorResp with
      | .raised => (none, dictInsert cache key none, 1)
      | .resp st body =>
        if st = 200 then
          match body with
          | none => (none, dictInsert cache key none, 1)
          | some card => (some card, dictInsert cache key (some card), 1)
        else queryScrySearchStep searchResp card_name key cache 1
    else queryScrySearchStep searchResp card_name key cache 0

/-! ## Entry building and pricing (card_processing.build_card_entry,
data_processing.get_market_price, create_scryfall_fallback_entry) -/

/-- One candidate price field (lines 26-41 of data_processing.py): strip,
skip when empty (short-circuit of `price and float(price) > 0`), skip on a
ValueError or a non-positive value, else return the stripped string. -/
def tryPrice (s : String) : Option String :=
  let p := pyStrip s
  if p = "" then none
  else
    match pyFloat? p with
    | none => none
    | some v => if 0 < v then some p else none

/-- Embedding of `get_market_price`: reference marketplace, list and retail
prices in order, then the inventory purchase price, then the 0.10 floor. -/
def getMarketPrice (row : ManaboxRow) (refRow : Option Entry) : String :=
  let fromRef :=
    match refRow with
    | none => none
    | some r =>
      (tryPrice r.tcgMarketplacePrice).orElse fun _ =>
        (tryPrice r.listPrice).orElse fun _ => tryPrice r.retailPrice
  match fromRef with
  | some p => p
  | none =>
    match tryPrice row.purchasePrice with
    | some p => p
    | none => "0.10"

/-- The override/fallback helper `get_value` of `build_card_entry`: a truthy
override wins, else the reference row's field, else "". -/
def getVal (refRow : Option Entry) (f : Entry → String) (ov : Option String) : String :=
  match ov with
  | some s => if s ≠ "" then s else (refRow.map f).getD ""
  | none => (refRow.map f).getD ""

/-- Embedding of `build_card_entry` (card_processing.py lines 49-89).
`none` models the ValueError of `int(...)` on a malformed quantity. -/
def buildCardEntry (row : ManaboxRow) (cond : String) (refRow : Option Entry)
    (ovProduct ovSet ovNumber ovRarity ovId : Option String) : Option Entry :=
  match pyInt? row.quantity with
  | none => none
  | some qty =>
    some
      { tcgplayerId := ovId.getD defaultTcgplayerId
        productLine := defaultProductLine
        setName := getVal refRow Entry.setName ovSet
        productName := getVal refRow Entry.productName ovProduct
        number := getVal refRow Entry.number ovNumber
        rarity := getVal refRow Entry.rarity ovRarity
        condition := cond
        addToQuantity := qty
        tcgMarketplacePrice := getMarketPrice row refRow }

/-- Embedding of `create_scryfall_fallback_entry` (data_processing.py
lines 178-195). -/
def createScryfallFallbackEntry (card : ScryCard) (row : ManaboxRow) (cond : String) :
    Option Entry :=
  match pyInt? row.quantity with
  | none => none
  | some qty =>
    let promoSuffix :=
      if card.promo && card.promo_types ≠ [] then
        " (" ++ pyTitle (joinSep ", " card.promo_types) ++ ")"
      else ""
    some
      { tcgplayerId := defaultScryfallId
        productLine := defaultProductLine
        setName := card.set_name
        productName := card.name ++ promoSuffix
        number := card.collector_number
        rarity := pyTitle card.rarity
        condition := cond
        addToQuantity := qty
        tcgMarketplacePrice := getMarketPrice row none }

/-! ## Reconciliation state (card_processing.ProcessingState) -/

/-- The process-scoped mutable state of card_processing.py, threaded
explicitly.  A pending item is `(normalized key, ranked matches, pool)`
exactly as appended on line 115. -/
structure PState where
  givenUpCards : List Entry := []
  scryfallOnlyCards : List Entry := []
  confirmedMatches : List (Key4 × Key5) := []
  pendingConfirmations : List (Key4 × List (Key5 × Int) × RefData) := []
deriving DecidableEq, Repr

/-! ## Confirmation policy (card_processing.confirm_and_iterate_match) -/

/-- The auto-confirmation condition of lines 104-109, as a Bool. -/
def shouldConfirmB (best : Key5 × Int) (second : Int) (refData : RefData) : Bool :=
  let isScry :=
    match alookup best.1 refData with
    | some e => e.tcgplayerId = defaultScryfallId
    | none => false
  (isScry && scryfallScore ≤ best.2) || highConfidenceScore ≤ best.2 ||
    (mediumConfidenceScore ≤ best.2 && scoreDifferenceThreshold ≤ best.2 - second)

/-- Embedding of `confirm_and_iterate_match` (lines 96-116).  The outer
`none` models the IndexError of `matches[0]` on an empty list (the caller
guards against it).  On confirmation the 4-field key is written to the
confirmed-match cache and the best candidate returned; otherwise the
`(key, matches, ref_data)` tuple is appended to the pending queue
unconditionally and `None` is returned. -/
def confirmAndIterateMatch (key : Key4) (ms : List (Key5 × Int))
    (refData : RefData) (st : PState) : Option (Option Key5 × PState) :=
  match ms with
  | [] => none
  | best :: rest =>
    let second : Int := match rest with | [] => 0 | p :: _ => p.2
    if shouldConfirmB best second refData then
      some (some best.1, { st with confirmedMatches := dictInsert st.confirmedMatches key best.1 })
    else
      some (none, { st with
        pendingConfirmations := st.pendingConfirmations ++ [(key, ms, refData)] })

/-! ## Scryfall enrichment (data_processing.enhance_matches_with_scryfall) -/

/-- Set-code derivation of lines 150-154: alias table first, then for set
names longer than 3 characters with at least two words, the first letters
of the first three words. -/
def deriveSetCode (setName : String) : String :=
  let code := (alookup setName setAlias).getD setName
  if setName.length > 3 then
    let words := pyWords setName
    if words.length ≥ 2 then
      pyLower (String.mk ((words.take 3).map (fun w => w.toList.headD ' ')))
    else code
  else code

/-- The remote-lookup half of `enhance_matches_with_scryfall` (lines
142-156): an optional caller-supplied Scryfall id first, then the
(name, derived set code, number) lookup.  `qById` and `qByCard` are the
oracles for `query_scryfall_by_id` and `query_scryfall_card`. -/
def scryfallLookupStep (qById : String → Option ScryCard)
    (qByCard : String → String → Option String → Option ScryCard)
    (nk : Key5) (row : Option ManaboxRow) : Option ScryCard :=
  let byId :=
    match row with
    | some r =>
      if r.scryfallId ≠ "" then
        (if pyStrip r.scryfallId ≠ "" then qById (pyStrip r.scryfallId) else none)
      else none
    | none => none
  match byId with
  | some c => some c
  | none => qByCard nk.name (deriveSetCode nk.set) nk.num

/-- Embedding of `enhance_matches_with_scryfall` (lines 140-175).  On a
remote hit with no candidate at rank 0 scoring 300 or more, a fallback
entry is synthesized, registered in the pool under the synthetic key (the
full 5-field key) and prepended to the match list with score 350.  `none`
models the ValueError of `int(...)` inside the entry builder. -/
def enhanceMatchesWithScryfall (qById : String → Option ScryCard)
    (qByCard : String → String → Option String → Option ScryCard)
    (nk : Key5) (ms : List (Key5 × Int)) (refData : RefData)
    (row : Option ManaboxRow) : Option (List (Key5 × Int) × RefData) :=
  match scryfallLookupStep qById qByCard nk row with
  | none => some (ms, refData)
  | some card =>
    let qualifies := match ms with | [] => true | p :: _ => p.2 < 300
    if qualifies then
      match row with
      | some r =>
        match createScryfallFallbackEntry card r nk.cond with
        | none => none
        | some entry =>
          some ((nk, scryfallScore) :: ms, dictInsert refData nk entry)
      | none => some (ms, refData)
    else some (ms, refData)

/-! ## Card processing (card_processing.process_card, standard path)

Embeds `process_card` with `is_token = False` (the token branch is a
separate specialized routine, out of scope of the claims below).  The
result is `(emitted entry or None, updated pool, updated state)`; the
outer `none` models an uncaught exception (a KeyError on a dangling
confirmed-match reference or a ValueError from `int(...)`). -/

/-- Lines 185-189: append a given-up fallback unless the key is already in
the pending queue, and return None. -/
def givenUpStep (row : ManaboxRow) (cond name setName : String) (key : Key4)
    (db : RefData) (st : PState) : Option (Option Entry × RefData × PState) :=
  if st.pendingConfirmations.any (fun it => it.1 = key) then some (none, db, st)
  else
    match buildCardEntry row cond none (some name) (some setName) none none none with
    | none => none
    | some fb => some (none, db, { st with givenUpCards := st.givenUpCards ++ [fb] })

def processCard (sim : String → String → Int) (qById : String → Option ScryCard)
    (qByCard : String → String → Option String → Option ScryCard)
    (row : ManaboxRow) (db : RefData) (cond name setName : String) (st : PState) :
    Option (Option Entry × RefData × PState) :=
  let cardNumber := extractCardNumber row.collectorNumber
  if name = "" || setName = "" then some (none, db, st)
  else
    match normalizeKey name setName cond cardNumber with
    | none => some (none, db, st)
    | some nr =>
      let key := nr.toKey4
      match alookup key st.confirmedMatches with
      | some cand =>
        match alookup cand db with
        | none => none
        | some refRow =>
          match buildCardEntry row cond (some refRow)
              (some (refRow.productName ++ nr.suffix)) none none none none with
          | none => none
          | some e => some (some e, db, st)
      | none =>
        let matches0 := findBestMatch sim key db
        let enhanced :=
          match matches0 with
          | [] => enhanceMatchesWithScryfall qById qByCard nr matches0 db (some row)
          | p :: _ =>
            if p.2 < mediumConfidenceScore then
              enhanceMatchesWithScryfall qById qByCard nr matches0 db (some row)
            else some (matches0, db)
        match enhanced with
        | none => none
        | some (matches1, db1) =>
          match matches1 with
          | [] => givenUpStep row cond name setName key db1 st
          | _ :: _ =>
            match confirmAndIterateMatch key matches1 db1 st with
            | none => none
            | some (confirmedQ, st1) =>
              match confirmedQ with
              | some cm =>
                match alookup cm db1 with
                | none => none
                | some refRow =>
                  match buildCardEntry row cond (some refRow)
                      (some (refRow.productName ++ nr.suffix)) none none none none with
                  | none => none
                  | some e =>
                    if refRow.tcgplayerId = defaultScryfallId then
                      some (none, db1,
                        { st1 with scryfallOnlyCards := st1.scryfallOnlyCards ++ [e] })
                    else some (some e, db1, st1)
              | none => givenUpStep row cond name setName key db1 st1

/-! ## Helper lemmas -/

lemma shouldConfirmB_iff (b : Key5 × Int) (second : Int) (refData : RefData) :
    shouldConfirmB b second refData = true ↔
      ((∃ e, alookup b.1 refData = some e ∧ e.tcgplayerId = "Scryfall Verified") ∧
          (350 : Int) ≤ b.2) ∨
        (270 : Int) ≤ b.2 ∨ ((260 : Int) ≤ b.2 ∧ (30 : Int) ≤ b.2 - second) := by
  unfold shouldConfirmB scryfallScore highConfidenceScore mediumConfidenceScore
    scoreDifferenceThreshold defaultScryfallId
  cases h : alookup b.1 refData with
  | none => simp [h]
  | some e => by_cases he : e.tcgplayerId = "Scryfall Verified" <;> simp [h, he, or_assoc]

/-! ## C1 -/

/-- C1: for every non-empty ranked match list, `confirm_and_iterate_match`
confirms (writing the cache entry and returning the top candidate) exactly
when (a) the top candidate's catalog id is the 'Scryfall Verified' sentinel
and its score is at least 350, or (b) its score is at least 270, or (c) its
score is at least 260 and exceeds the runner-up score (0 when absent) by at
least 30; otherwise it appends `(key, matches, ref_data)` to the pending
queue, leaves the confirmed-match cache unchanged, and returns None. -/
theorem confirm_and_iterate_match_policy (key : Key4) (b : Key5 × Int)
    (rest : List (Key5 × Int)) (refData : RefData) (st : PState) :
    let second : Int := match rest with | [] => 0 | p :: _ => p.2
    let C : Prop :=
      ((∃ e, alookup b.1 refData = some e ∧ e.tcgplayerId = "Scryfall Verified") ∧
          (350 : Int) ≤ b.2) ∨
        (270 : Int) ≤ b.2 ∨ ((260 : Int) ≤ b.2 ∧ (30 : Int) ≤ b.2 - second)
    (C → confirmAndIterateMatch key (b :: rest) refData st =
        some (some b.1,
          { st with confirmedMatches := dictInsert st.confirmedMatches key b.1 })) ∧
    (¬C → confirmAndIterateMatch key (b :: rest) refData st =
        some (none,
          { st with pendingConfirmations :=
              st.pendingConfirmations ++ [(key, b :: rest, refData)] })) := by
  intro second C
  constructor
  · intro h
    have hb : shouldConfirmB b second refData = true := (shouldConfirmB_iff b second refData).mpr h
    simp only [confirmAndIterateMatch]
    rw [if_pos hb]
  · intro h
    have hb : shouldConfirmB b second refData = false := by
      by_contra hc
      exact h ((shouldConfirmB_iff b second refData).mp (by
        cases hx : shouldConfirmB b second refData
        · exact absurd hx hc
        · rfl))
    simp only [confirmAndIterateMatch]
    rw [if_neg (by simp [hb])]

/-- Witness for C1: a concrete confirmation at score 280 (high-confidence
branch) and a concrete deferral at score 200. -/
theorem confirm_and_iterate_match_policy_witness :
    ((270 : Int) ≤ 280 ∧
      confirmAndIterateMatch ⟨"a", "b", none, "near mint"⟩
          [(⟨"a", "b", none, "near mint", ""⟩, 280)] [] {} =
        some (some ⟨"a", "b", none, "near mint", ""⟩,
          { confirmedMatches :=
              dictInsert ([] : List (Key4 × Key5)) ⟨"a", "b", none, "near mint"⟩
                ⟨"a", "b", none, "near mint", ""⟩ })) ∧
    confirmAndIterateMatch ⟨"a", "b", none, "near mint"⟩
        [(⟨"a", "b", none, "near mint", ""⟩, 200)] [] {} =
      some (none,
        { pendingConfirmations :=
            [(⟨"a", "b", none, "near mint"⟩,
              [(⟨"a", "b", none, "near mint", ""⟩, 200)], ([] : RefData))] }) := by
  refine ⟨⟨by norm_num, ?_⟩, ?_⟩
  · exact (confirm_and_iterate_match_policy ⟨"a", "b", none, "near mint"⟩
      (⟨"a", "b", none, "near mint", ""⟩, 280) [] [] {}).1 (Or.inr (Or.inl (by norm_num)))
  · have h := (confirm_and_iterate_match_policy ⟨"a", "b", none, "near mint"⟩
      (⟨"a", "b", none, "near mint", ""⟩, 200) [] [] {}).2 (by
        intro h
        rcases h with ⟨⟨e, he, _⟩, _⟩ | h | ⟨h1, _⟩
        · simp [alookup] at he
        · norm_num at h
        · norm_num at h1)
    simpa using h

lemma ifSomeEmptyNe (o : Option String) :
    (if o = some "" then none else o) ≠ some "" := by
  split
  · simp
  · assumption

/-! ## C4 -/

/-- C4: `normalize_key` is total (it is a Lean function, so it cannot
raise), returns absent exactly when the normalized set name contains the
pre-release marker, and otherwise yields a 5-field key in which a number
that cleans to the empty string becomes absent rather than `some ""`, the
condition is the lowercased input, the suffix is empty, and empty name or
set inputs normalize to empty strings. -/
theorem normalize_key_shape (card_name set_name condition number : String) :
    (normalizeKey card_name set_name condition number = none ↔
      pyIn "prerelease cards" (normalizedSetOf set_name) = true) ∧
    (∀ k, normalizeKey card_name set_name condition number = some k →
      k.num ≠ some "" ∧ k.cond = pyLower condition ∧ k.suffix = "" ∧
      (card_name = "" → k.name = "") ∧ (set_name = "" → k.set = "")) := by
  constructor
  · simp only [normalizeKey]
    by_cases h : pyIn "prerelease cards" (normalizedSetOf set_name) = true
    · simp [h]
    · simp [h]
  · intro k hk
    simp only [normalizeKey] at hk
    by_cases h : pyIn "prerelease cards" (normalizedSetOf set_name) = true
    · simp [h] at hk
    · simp only [h, Bool.false_eq_true, if_false, if_neg, Option.some.injEq] at hk
      subst hk
      refine ⟨?_, rfl, rfl, ?_, ?_⟩
      · dsimp only
        exact ifSomeEmptyNe _
      · intro hc
        subst hc
        dsimp only
        decide
      · intro hc
        subst hc
        dsimp only
        decide

/-- Witness for C4: concrete instances of both directions — a pre-release
set yields absent, and a plain input yields a key whose letters-only number
became absent. -/
theorem normalize_key_shape_witness :
    (normalizeKey "Bolt" "Prerelease Cards: Foo" "Near Mint" "12" = none ↔
      pyIn "prerelease cards" (normalizedSetOf "Prerelease Cards: Foo") = true) ∧
    ((normalizeKey "" "" "Near Mint" "abc").elim True
      (fun k => k.num ≠ some "" ∧ k.cond = "near mint" ∧ k.suffix = "" ∧
        k.name = "" ∧ k.set = "")) := by
  constructor
  · exact (normalize_key_shape "Bolt" "Prerelease Cards: Foo" "Near Mint" "12").1
  · have h := (normalize_key_shape "" "" "Near Mint" "abc").2
      ⟨"", "", none, "near mint", ""⟩ (by decide)
    exact ⟨h.1, h.2.1, h.2.2.1, h.2.2.2.1 rfl, h.2.2.2.2 rfl⟩

/-! ## C7 -/

/-- C7 (code bug): the claimed reduction of a composite number to its
post-hyphen suffix for "the list" never happens inside `normalize_key`:
line 58 rewrites both reprint-list spellings to "the list reprints" before
line 64 compares against "the list", so that branch is unreachable and the
raw number "XXX-123" yields the key number "-123" (letters stripped, the
hyphen kept), not "123". -/
theorem normalize_key_the_list_branch_dead :
    normalizeKey "x" "plst" "near mint" "XXX-123" =
      some ⟨"x", "the list reprints", some "-123", "near mint", ""⟩ ∧
    ∀ s, (normalizedSetOf s == "the list") = false := by
  constructor
  · decide
  · intro s
    simp only [normalizedSetOf]
    split
    · decide
    · rename_i hcond
      simp only [Bool.or_eq_true, decide_eq_true_eq, not_or] at hcond
      exact beq_eq_false_iff_ne.mpr hcond.2

/-! ## C9: splitOnP characterization lemmas -/

lemma splitOnP_ne_nil (p : Char → Bool) (l : List Char) : splitOnP p l ≠ [] := by
  cases l with
  | nil => simp [splitOnP]
  | cons c cs =>
    simp only [splitOnP]
    split
    · simp
    · split <;> simp

lemma splitOnP_of_all_neg (p : Char → Bool) (l : List Char)
    (h : ∀ c ∈ l, p c = false) : splitOnP p l = [l] := by
  induction l with
  | nil => rfl
  | cons c cs ih =>
    have hc : p c = false := h c (by simp)
    have ihr : splitOnP p cs = [cs] := ih (fun d hd => h d (by simp [hd]))
    simp [splitOnP, hc, ihr]

lemma splitOnP_length_ge_two (p : Char → Bool) (l : List Char)
    (h : ∃ c ∈ l, p c = true) : (splitOnP p l).length ≥ 2 := by
  induction l with
  | nil => simp at h
  | cons c cs ih =>
    simp only [splitOnP]
    by_cases hc : p c = true
    · simp only [hc, if_true, List.length_cons]
      have := splitOnP_ne_nil p cs
      cases hx : splitOnP p cs with
      | nil => exact absurd hx this
      | cons a t => simp [hx]
    · have hcs : ∃ d ∈ cs, p d = true := by
        rcases h with ⟨d, hd, hpd⟩
        rcases List.mem_cons.mp hd with rfl | hmem
        · exact absurd hpd hc
        · exact ⟨d, hmem, hpd⟩
      have hr := ih hcs
      simp only [hc, if_false, Bool.false_eq_true]
      cases hx : splitOnP p cs with
      | nil => exact absurd hx (splitOnP_ne_nil p cs)
      | cons a t =>
        rw [hx] at hr
        simpa using hr

lemma takeWhile_append_all {α : Type} (p : α → Bool) (xs ys : List α)
    (h : ∀ x ∈ xs, p x = true) :
    (xs ++ ys).takeWhile p = xs ++ ys.takeWhile p := by
  induction xs with
  | nil => simp
  | cons x t ih =>
    have hx : p x = true := h x (by simp)
    simp [List.takeWhile_cons, hx, ih (fun y hy => h y (by simp [hy]))]

lemma takeWhile_append_last {α : Type} (p : α → Bool) (xs : List α) (a : α)
    (h : p a = false) : (xs ++ [a]).takeWhile p = xs.takeWhile p := by
  induction xs with
  | nil => simp [List.takeWhile_cons, h]
  | cons x t ih =>
    by_cases hx : p x = true
    · simp [List.takeWhile_cons, hx, ih]
    · have hx2 : p x = false := by
        cases hz : p x
        · rfl
        · exact absurd hz hx
      simp [List.takeWhile_cons, hx2]

lemma takeWhile_append_stop {α : Type} (p : α → Bool) (xs ys : List α)
    (h : ∃ x ∈ xs, p x = false) :
    (xs ++ ys).takeWhile p = xs.takeWhile p := by
  induction xs with
  | nil => simp at h
  | cons x t ih =>
    by_cases hx : p x = true
    · have ht : ∃ y ∈ t, p y = false := by
        rcases h with ⟨y, hy, hpy⟩
        rcases List.mem_cons.mp hy with rfl | hmem
        · rw [hx] at hpy; exact absurd hpy (by simp)
        · exact ⟨y, hmem, hpy⟩
      simp [List.takeWhile_cons, hx, ih ht]
    · have hx2 : p x = false := by
        cases hpx : p x
        · rfl
        · exact absurd hpx hx
      simp [List.takeWhile_cons, hx2]

lemma getLastD_splitOnP (p : Char → Bool) (l : List Char) :
    (splitOnP p l).getLastD [] =
      (l.reverse.takeWhile (fun c => !p c)).reverse := by
  induction l with
  | nil => rfl
  | cons c cs ih =>
    simp only [splitOnP, List.reverse_cons]
    by_cases hc : p c = true
    · rw [if_pos hc, List.getLastD_cons]
      rw [takeWhile_append_last _ _ _ (by simp [hc])]
      exact ih
    · have hc2 : p c = false := by
        cases hpx : p c
        · rfl
        · exact absurd hpx hc
      rw [if_neg (by simp [hc2])]
      cases hx : splitOnP p cs with
      | nil => exact absurd hx (splitOnP_ne_nil p cs)
      | cons h2 t =>
        cases t with
        | nil =>
          have hnone : ∀ d ∈ cs, p d = false := by
            intro d hd
            by_contra hpd
            have hpd2 : p d = true := by
              cases hz : p d
              · exact absurd hz hpd
              · rfl
            have := splitOnP_length_ge_two p cs ⟨d, hd, hpd2⟩
            rw [hx] at this
            simp at this
          have hcs : splitOnP p cs = [cs] := splitOnP_of_all_neg p cs hnone
          rw [hx] at hcs
          have h2eq : h2 = cs := by
            simpa using hcs
          subst h2eq
          simp only [List.getLastD_cons, List.getLastD_nil]
          rw [takeWhile_append_all _ _ _ (by
            intro x hxm
            simp only [Bool.not_eq_true']
            exact hnone x (List.mem_reverse.mp hxm))]
          simp [List.takeWhile_cons, hc2]
        | cons h3 t2 =>
          have hr2 : (splitOnP p cs).getLastD [] = (h3 :: t2).getLastD h2 := by
            rw [hx, List.getLastD_cons]
          have hex : ∃ d ∈ cs, p d = true := by
            by_contra hno
            push_neg at hno
            have hall : ∀ d ∈ cs, p d = false := by
              intro d hd
              cases hz : p d
              · rfl
              · exact absurd hz (hno d hd)
            have := splitOnP_of_all_neg p cs hall
            rw [hx] at this
            simp at this
          rw [List.getLastD_cons]
          have hstep : (h3 :: t2).getLastD (c :: h2) = (h3 :: t2).getLastD h2 := by
            rw [List.getLastD_cons, List.getLastD_cons]
          rw [hstep, ← hr2, ih]
          rw [takeWhile_append_stop _ _ _ (by
            rcases hex with ⟨d, hd, hpd⟩
            exact ⟨d, List.mem_reverse.mpr hd, by simp [hpd]⟩)]

/-! ## C9 -/

/-- C9: `extract_card_number` returns the segment of the (stripped) raw
collector number after its last hyphen with the leading run of letters and
hyphens removed, for every input — the reduction is built into the row
extractor itself (it reads only the 'Collector number' field, never the
set), so every card's number is reduced before it reaches `normalize_key`. -/
theorem extract_card_number_spec (raw : String) :
    extractCardNumber raw = segmentAfterLastHyphen raw := by
  unfold extractCardNumber segmentAfterLastHyphen
  have hf : (fun c : Char => decide ¬(c = '-')) = (fun c : Char => !decide (c = '-')) := by
    funext c
    simp [decide_not]
  simp only [ne_eq, hf, getLastD_splitOnP]

/-! ## Sorting and scorer characterization lemmas -/

lemma mem_insertDesc (x a : Key5 × Int) (l : List (Key5 × Int)) :
    a ∈ insertDesc x l ↔ a = x ∨ a ∈ l := by
  induction l with
  | nil => simp [insertDesc]
  | cons y ys ih =>
    simp only [insertDesc]
    split
    · simp
    · simp [ih]
      tauto

lemma mem_sortDesc (a : Key5 × Int) (l : List (Key5 × Int)) :
    a ∈ sortDesc l ↔ a ∈ l := by
  induction l with
  | nil => simp [sortDesc]
  | cons x xs ih => simp [sortDesc, mem_insertDesc, ih]

lemma pairwise_insertDesc (x : Key5 × Int) (l : List (Key5 × Int))
    (h : l.Pairwise (fun a b => b.2 ≤ a.2)) :
    (insertDesc x l).Pairwise (fun a b => b.2 ≤ a.2) := by
  induction l with
  | nil => simp [insertDesc]
  | cons y ys ih =>
    simp only [insertDesc]
    rcases List.pairwise_cons.mp h with ⟨hy, hys⟩
    split
    · rename_i hle
      exact List.pairwise_cons.mpr ⟨by
        intro z hz
        rcases List.mem_cons.mp hz with rfl | hz2
        · exact hle
        · exact (hy z hz2).trans hle, h⟩
    · rename_i hgt
      push_neg at hgt
      exact List.pairwise_cons.mpr ⟨by
        intro z hz
        rcases (mem_insertDesc x z ys).mp hz with rfl | hz2
        · exact le_of_lt hgt
        · exact hy z hz2, ih hys⟩

lemma pairwise_sortDesc (l : List (Key5 × Int)) :
    (sortDesc l).Pairwise (fun a b => b.2 ≤ a.2) := by
  induction l with
  | nil => simp [sortDesc]
  | cons x xs ih => exact pairwise_insertDesc x _ ih

/-- The exact-number contribution of a candidate is produced exactly when
the claim-side `exactNumberMatch` predicate holds. -/
lemma processCandidate_fst_isSome (sim : String → String → Int) (q : Key4)
    (k : Key5) (e : Entry) :
    (processCandidate sim q k e).1.isSome = exactNumberMatch q k := by
  unfold processCandidate exactNumberMatch
  by_cases h1 : namePruned q.name k.name
  · simp [h1]
  · by_cases h2 : wordPruned q.name k.name
    · simp [h1, h2]
    · simp only [h1, h2, Bool.false_eq_true, if_false]
      by_cases h3 : (!optTruthy q.num || !optTruthy k.num) = true
      · rcases Bool.or_eq_true _ _ |>.mp h3 with h4 | h4 <;>
          simp_all <;> split <;> simp_all
      · simp only [Bool.or_eq_true, Bool.not_eq_true'] at h3
        push_neg at h3
        by_cases h5 : q.num = k.num <;>
          simp_all [Bool.not_eq_true']
        · split <;> simp
        · split <;> simp

/-- A fuzzy-tier contribution is only produced for non-pre-release rows. -/
lemma processCandidate_snd_prerel (sim : String → String → Int) (q : Key4)
    (k : Key5) (e : Entry) (s : Int)
    (h : (processCandidate sim q k e).2 = some s) : prerelCand e = false := by
  unfold processCandidate at h
  by_cases h1 : namePruned q.name k.name
  · simp [h1] at h
  · by_cases h2 : wordPruned q.name k.name
    · simp [h1, h2] at h
    · simp only [h1, h2, Bool.false_eq_true, if_false] at h
      by_cases h3 : prerelCand e = true
      · simp [h3] at h
      · exact Bool.not_eq_true _ |>.mp h3

/-- Membership in the exact-number tier of `findBestMatch`. -/
lemma mem_exacts_iff (sim : String → String → Int) (q : Key4) (db : RefData)
    (p : Key5 × Int) :
    (p ∈ (db.map (fun kv => (kv.1, processCandidate sim q kv.1 kv.2))).filterMap
        (fun r => r.2.1.map (fun s => (r.1, s)))) ↔
      ∃ kv ∈ db, kv.1 = p.1 ∧ (processCandidate sim q kv.1 kv.2).1 = some p.2 := by
  constructor
  · intro hmem
    rcases List.mem_filterMap.mp hmem with ⟨r, hr, hmap⟩
    rcases List.mem_map.mp hr with ⟨kv, hkv, rfl⟩
    rcases Option.map_eq_some'.mp hmap with ⟨s, hs, hps⟩
    subst hps
    exact ⟨kv, hkv, rfl, hs⟩
  · rintro ⟨kv, hkv, h1, h2⟩
    refine List.mem_filterMap.mpr
      ⟨(kv.1, processCandidate sim q kv.1 kv.2), List.mem_map.mpr ⟨kv, hkv, rfl⟩, ?_⟩
    refine Option.map_eq_some'.mpr ⟨p.2, h2, ?_⟩
    obtain ⟨p1, p2⟩ := p
    simp_all

/-- Membership in the fuzzy tier of `findBestMatch`. -/
lemma mem_fuzz_iff (sim : String → String → Int) (q : Key4) (db : RefData)
    (p : Key5 × Int) :
    (p ∈ (db.map (fun kv => (kv.1, processCandidate sim q kv.1 kv.2))).filterMap
        (fun r => r.2.2.map (fun s => (r.1, s)))) ↔
      ∃ kv ∈ db, kv.1 = p.1 ∧ (processCandidate sim q kv.1 kv.2).2 = some p.2 := by
  constructor
  · intro hmem
    rcases List.mem_filterMap.mp hmem with ⟨r, hr, hmap⟩
    rcases List.mem_map.mp hr with ⟨kv, hkv, rfl⟩
    rcases Option.map_eq_some'.mp hmap with ⟨s, hs, hps⟩
    subst hps
    exact ⟨kv, hkv, rfl, hs⟩
  · rintro ⟨kv, hkv, h1, h2⟩
    refine List.mem_filterMap.mpr
      ⟨(kv.1, processCandidate sim q kv.1 kv.2), List.mem_map.mpr ⟨kv, hkv, rfl⟩, ?_⟩
    refine Option.map_eq_some'.mpr ⟨p.2, h2, ?_⟩
    obtain ⟨p1, p2⟩ := p
    simp_all

/-! ## C2 -/

/-- C2: when some candidate (surviving the name prunes) has a collector
number present on both sides and equal to the query's, `find_best_match`
returns only such exact-number candidates; otherwise it returns exactly
the surviving candidates (those with a fuzzy-tier score), sorted in
descending order of score. -/
theorem find_best_match_tiering (sim : String → String → Int) (q : Key4)
    (db : RefData) :
    ((∃ kv ∈ db, exactNumberMatch q kv.1 = true) →
      ∀ p ∈ findBestMatch sim q db,
        exactNumberMatch q p.1 = true ∧ ∃ e, (p.1, e) ∈ db) ∧
    ((∀ kv ∈ db, exactNumberMatch q kv.1 = false) →
      (findBestMatch sim q db).Pairwise (fun a b => b.2 ≤ a.2) ∧
      (∀ kv ∈ db, ∀ s, (processCandidate sim q kv.1 kv.2).2 = some s →
        (kv.1, s) ∈ findBestMatch sim q db) ∧
      (∀ p ∈ findBestMatch sim q db,
        ∃ e, (p.1, e) ∈ db ∧ (processCandidate sim q p.1 e).2 = some p.2)) := by
  constructor
  · intro hex p hp
    simp only [findBestMatch] at hp
    have hne : ¬((db.map (fun kv => (kv.1, processCandidate sim q kv.1 kv.2))).filterMap
        (fun r => r.2.1.map (fun s => (r.1, s)))).isEmpty = true := by
      rcases hex with ⟨kv, hkv, hm⟩
      have hsome : (processCandidate sim q kv.1 kv.2).1.isSome = true := by
        rw [processCandidate_fst_isSome]
        exact hm
      rcases Option.isSome_iff_exists.mp hsome with ⟨s, hs⟩
      have : (kv.1, s) ∈ (db.map (fun kv => (kv.1, processCandidate sim q kv.1 kv.2))).filterMap
          (fun r => r.2.1.map (fun s => (r.1, s))) :=
        (mem_exacts_iff sim q db (kv.1, s)).mpr ⟨kv, hkv, rfl, hs⟩
      intro hemp
      rw [List.isEmpty_iff] at hemp
      rw [hemp] at this
      simp at this
    rw [if_neg hne] at hp
    have hp2 := (mem_sortDesc _ _).mp hp
    rcases (mem_exacts_iff sim q db p).mp hp2 with ⟨kv, hkv, h1, h2⟩
    constructor
    · rw [← h1, ← processCandidate_fst_isSome sim q kv.1 kv.2, h2]
      rfl
    · refine ⟨kv.2, ?_⟩
      have hkv2 : kv = (p.1, kv.2) := by
        obtain ⟨a, b⟩ := kv
        simp_all
      rw [← hkv2]
      exact hkv
  · intro hno
    have hemp : ((db.map (fun kv => (kv.1, processCandidate sim q kv.1 kv.2))).filterMap
        (fun r => r.2.1.map (fun s => (r.1, s)))).isEmpty = true := by
      rw [List.isEmpty_iff, List.eq_nil_iff_forall_not_mem]
      intro p hp
      rcases (mem_exacts_iff sim q db p).mp hp with ⟨kv, hkv, h1, h2⟩
      have : (processCandidate sim q kv.1 kv.2).1.isSome = true := by rw [h2]; rfl
      rw [processCandidate_fst_isSome] at this
      rw [hno kv hkv] at this
      exact absurd this (by simp)
    refine ⟨?_, ?_, ?_⟩
    · simp only [findBestMatch]
      rw [if_pos hemp]
      exact pairwise_sortDesc _
    · intro kv hkv s hs
      simp only [findBestMatch]
      rw [if_pos hemp]
      rw [mem_sortDesc]
      exact (mem_fuzz_iff sim q db (kv.1, s)).mpr ⟨kv, hkv, rfl, hs⟩
    · intro p hp
      simp only [findBestMatch] at hp
      rw [if_pos hemp] at hp
      rw [mem_sortDesc] at hp
      rcases (mem_fuzz_iff sim q db p).mp hp with ⟨kv, hkv, h1, h2⟩
      refine ⟨kv.2, ?_, ?_⟩
      · have hkv2 : kv = (p.1, kv.2) := by
          obtain ⟨a, b⟩ := kv
          simp_all
        rw [← hkv2]
        exact hkv
      · rw [h1] at h2
        exact h2

/-- Witness for C2: the exact-number branch at a one-candidate pool whose
number matches, and the fuzzy branch at a one-candidate pool queried with
an absent number. -/
theorem find_best_match_tiering_witness :
    ((∃ kv ∈ ([((⟨"bolt", "alpha", some "1", "near mint", ""⟩,
        { productName := "Bolt", setName := "Alpha" }) : Key5 × Entry)] : RefData),
        exactNumberMatch ⟨"bolt", "alpha", some "1", "near mint"⟩ kv.1 = true) ∧
      ∀ p ∈ findBestMatch simIfEq ⟨"bolt", "alpha", some "1", "near mint"⟩
          [(⟨"bolt", "alpha", some "1", "near mint", ""⟩,
            { productName := "Bolt", setName := "Alpha" })],
        exactNumberMatch ⟨"bolt", "alpha", some "1", "near mint"⟩ p.1 = true ∧
          ∃ e, (p.1, e) ∈ ([((⟨"bolt", "alpha", some "1", "near mint", ""⟩,
            { productName := "Bolt", setName := "Alpha" }) : Key5 × Entry)] : RefData)) ∧
    ((∀ kv ∈ ([((⟨"bolt", "alpha", none, "near mint", ""⟩,
        { productName := "Bolt", setName := "Alpha" }) : Key5 × Entry)] : RefData),
        exactNumberMatch ⟨"bolt", "alpha", none, "near mint"⟩ kv.1 = false) ∧
      (findBestMatch simIfEq ⟨"bolt", "alpha", none, "near mint"⟩
        [(⟨"bolt", "alpha", none, "near mint", ""⟩,
          { productName := "Bolt", setName := "Alpha" })]).Pairwise
        (fun a b => b.2 ≤ a.2)) := by
  constructor
  · exact ⟨by decide, (find_best_match_tiering simIfEq
      ⟨"bolt", "alpha", some "1", "near mint"⟩ _).1 (by decide)⟩
  · exact ⟨by decide, ((find_best_match_tiering simIfEq
      ⟨"bolt", "alpha", none, "near mint"⟩ _).2 (by decide)).1⟩

/-! ## C5 -/

lemma keys_nodup_unique {l : RefData} (hnd : (l.map Prod.fst).Nodup)
    {k : Key5} {e1 e2 : Entry} (h1 : (k, e1) ∈ l) (h2 : (k, e2) ∈ l) :
    e1 = e2 := by
  induction l with
  | nil => simp at h1
  | cons x xs ih =>
    rw [List.map_cons] at hnd
    rcases List.nodup_cons.mp hnd with ⟨hx, hxs⟩
    rcases List.mem_cons.mp h1 with h1a | h1b
    · rcases List.mem_cons.mp h2 with h2a | h2b
      · have heq := h1a.trans h2a.symm
        exact ((Prod.mk.injEq _ _ _ _).mp heq).2
      · exfalso
        apply hx
        rw [← h1a]
        exact List.mem_map.mpr ⟨(k, e2), h2b, rfl⟩
    · rcases List.mem_cons.mp h2 with h2a | h2b
      · exfalso
        apply hx
        rw [← h2a]
        exact List.mem_map.mpr ⟨(k, e1), h1b, rfl⟩
      · exact ih hxs h1b h2b

/-- Counterexample for C5: a pre-release candidate whose collector number
exactly matches the query enters the exact-number tier (line 100 runs
before the pre-release `continue` of lines 118-120) and is returned by
`find_best_match` — refuting the claim that such candidates never appear
in the returned list. -/
theorem prerelease_in_exact_tier_counterexample :
    findBestMatch simIfEq ⟨"bolt", "alpha", some "1", "near mint"⟩
        [(⟨"bolt", "alpha", some "1", "near mint", ""⟩,
          { productName := "Prerelease Bolt", setName := "Alpha" })] =
      [(⟨"bolt", "alpha", some "1", "near mint", ""⟩, 270)] ∧
    pyIn "prerelease"
      (pyLower (Entry.productName
        { productName := "Prerelease Bolt", setName := "Alpha" })) = true := by
  constructor
  · decide
  · decide

/-- C5 (amended): a candidate whose product name contains 'prerelease' or
whose set name contains 'prerelease cards' (case-insensitively) is skipped
in the fuzzy tier, but a pre-release candidate whose collector number
exactly matches the query still enters the exact-number tier; hence on any
pool (with dict-unique keys) in which no pre-release candidate is an
exact-number match, no pre-release candidate ever appears in the returned
list. -/
theorem prerelease_skipped_unless_exact (sim : String → String → Int) (q : Key4)
    (db : RefData) (hnd : (db.map Prod.fst).Nodup)
    (h : ∀ kv ∈ db, prerelCand kv.2 = true → exactNumberMatch q kv.1 = false) :
    ∀ p ∈ findBestMatch sim q db, ∀ e, (p.1, e) ∈ db → prerelCand e = false := by
  intro p hp e he
  by_cases hex : ∃ kv ∈ db, exactNumberMatch q kv.1 = true
  · have hm := ((find_best_match_tiering sim q db).1 hex p hp).1
    by_contra hpre
    have hpre2 : prerelCand e = true := by
      cases hz : prerelCand e
      · exact absurd hz hpre
      · rfl
    have := h (p.1, e) he hpre2
    rw [hm] at this
    exact absurd this (by simp)
  · push_neg at hex
    have hno : ∀ kv ∈ db, exactNumberMatch q kv.1 = false := by
      intro kv hkv
      cases hz : exactNumberMatch q kv.1
      · rfl
      · exact absurd hz (by simpa using hex kv hkv)
    rcases ((find_best_match_tiering sim q db).2 hno).2.2 p hp with ⟨e2, he2, hs2⟩
    have hee : e = e2 := keys_nodup_unique hnd he he2
    rw [hee]
    exact processCandidate_snd_prerel sim q p.1 e2 p.2 hs2

/-- Witness for C5's amended theorem: a pool with one non-pre-release and
one pre-release candidate, neither an exact-number match (the query number
is absent), where the returned list contains no pre-release candidate. -/
theorem prerelease_skipped_unless_exact_witness :
    (([((⟨"bolt", "alpha", none, "near mint", ""⟩,
          { productName := "Bolt", setName := "Alpha" }) : Key5 × Entry),
        ((⟨"bolt", "alpha", none, "damaged", ""⟩,
          { productName := "Prerelease Bolt", setName := "Alpha" }) : Key5 × Entry)]
        : RefData).map Prod.fst).Nodup ∧
    (∀ p ∈ findBestMatch simIfEq ⟨"bolt", "alpha", none, "near mint"⟩
        ([((⟨"bolt", "alpha", none, "near mint", ""⟩,
          { productName := "Bolt", setName := "Alpha" }) : Key5 × Entry),
         ((⟨"bolt", "alpha", none, "damaged", ""⟩,
          { productName := "Prerelease Bolt", setName := "Alpha" }) : Key5 × Entry)] : RefData),
      ∀ e, (p.1, e) ∈ ([((⟨"bolt", "alpha", none, "near mint", ""⟩,
          { productName := "Bolt", setName := "Alpha" }) : Key5 × Entry),
        ((⟨"bolt", "alpha", none, "damaged", ""⟩,
          { productName := "Prerelease Bolt", setName := "Alpha" }) : Key5 × Entry)]
        : RefData) → prerelCand e = false) := by
  refine ⟨by decide, ?_⟩
  exact prerelease_skipped_unless_exact simIfEq ⟨"bolt", "alpha", none, "near mint"⟩
    _ (by decide) (by decide)

/-! ## C8: merge lemmas -/

/-- First entry of `l` with merge key `p` (dict lookup order). -/
def findByKey (p : String × String) (l : List Entry) : Option Entry :=
  l.find? (fun e => mergeKey e = p)

/-- Total 'Add to Quantity' over the entries of `cards` with merge key `p`. -/
def sumQty (cards : List Entry) (p : String × String) : Int :=
  ((cards.filter (fun c => mergeKey c = p)).map Entry.addToQuantity).sum

lemma any_key_eq_isSome (l : List Entry) (k : String × String) :
    (l.any fun e => mergeKey e = k) = (findByKey k l).isSome := by
  induction l with
  | nil => rfl
  | cons x xs ih =>
    by_cases hx : mergeKey x = k
    · simp [findByKey, List.any_cons, List.find?_cons_of_pos, hx]
    · simp only [List.any_cons, decide_eq_true_eq]
      rw [findByKey, List.find?_cons_of_neg _ (by simp [hx])]
      simp [hx, ih, findByKey]

lemma findByKey_mergeInsert (acc : List Entry) (c : Entry) (p : String × String) :
    findByKey p (mergeInsert acc c) =
      if mergeKey c = p then
        match findByKey p acc with
        | some e => some { e with addToQuantity := e.addToQuantity + c.addToQuantity }
        | none => some c
      else findByKey p acc := by
  unfold mergeInsert
  by_cases hany : (acc.any fun e => mergeKey e = mergeKey c) = true
  · rw [if_pos hany]
    have hsome : (findByKey (mergeKey c) acc).isSome = true := by
      rw [← any_key_eq_isSome]
      exact hany
    have hmap : findByKey p (acc.map (fun e =>
        if mergeKey e = mergeKey c then
          { e with addToQuantity := e.addToQuantity + c.addToQuantity }
        else e)) =
        (findByKey p acc).map (fun e =>
          if mergeKey e = mergeKey c then
            { e with addToQuantity := e.addToQuantity + c.addToQuantity }
          else e) := by
      unfold findByKey
      rw [List.find?_map]
      have hpred : ((fun e => decide (mergeKey e = p)) ∘ (fun e =>
          if mergeKey e = mergeKey c then
            { e with addToQuantity := e.addToQuantity + c.addToQuantity }
          else e)) = (fun e => decide (mergeKey e = p)) := by
        funext e
        simp only [Function.comp]
        split <;> rfl
      rw [hpred]
    rw [hmap]
    by_cases hp : mergeKey c = p
    · rw [if_pos hp]
      rcases Option.isSome_iff_exists.mp hsome with ⟨e0, he0⟩
      rw [hp] at he0
      rw [he0]
      have hk0 : mergeKey e0 = p := by
        have := List.find?_some he0
        simpa using this
      simp [hk0, hp]
    · rw [if_neg hp]
      cases hf : findByKey p acc with
      | none => rfl
      | some e0 =>
        have hk0 : mergeKey e0 = p := by
          have := List.find?_some hf
          simpa [findByKey] using this
        have hne : ¬(mergeKey e0 = mergeKey c) := by
          intro h
          apply hp
          rw [← hk0, h]
        simp [hne]
  · rw [if_neg hany]
    have hnone : findByKey (mergeKey c) acc = none := by
      cases hf : findByKey (mergeKey c) acc with
      | none => rfl
      | some e0 =>
        exfalso
        apply hany
        rw [any_key_eq_isSome, hf]
        rfl
    unfold findByKey
    rw [List.find?_append]
    by_cases hp : mergeKey c = p
    · rw [if_pos hp]
      rw [← hp]
      rw [show (List.find? (fun e => decide (mergeKey e = mergeKey c)) acc) = none from hnone]
      simp [List.find?_cons_of_pos]
    · rw [if_neg hp]
      have : List.find? (fun e => decide (mergeKey e = p)) [c] = none := by
        rw [List.find?_cons_of_neg _ (by simp [hp])]
        rfl
      rw [this]
      simp [findByKey]

lemma sumQty_cons (c : Entry) (cs : List Entry) (p : String × String) :
    sumQty (c :: cs) p =
      (if mergeKey c = p then c.addToQuantity else 0) + sumQty cs p := by
  unfold sumQty
  by_cases h : mergeKey c = p
  · simp [List.filter_cons, h]
  · simp [List.filter_cons, h]

lemma findByKey_foldl (cards : List Entry) (acc : List Entry) (p : String × String) :
    findByKey p (cards.foldl mergeInsert acc) =
      match findByKey p acc with
      | some e => some { e with addToQuantity := e.addToQuantity + sumQty cards p }
      | none =>
        match findByKey p cards with
        | some c => some { c with addToQuantity := sumQty cards p }
        | none => none := by
  induction cards generalizing acc with
  | nil =>
    simp only [List.foldl_nil]
    cases hf : findByKey p acc with
    | none => simp [findByKey]
    | some e => simp [sumQty]
  | cons c cs ih =>
    rw [List.foldl_cons, ih (mergeInsert acc c), findByKey_mergeInsert]
    by_cases hp : mergeKey c = p
    · rw [if_pos hp]
      cases hf : findByKey p acc with
      | some e =>
        simp only [hf]
        rw [sumQty_cons, if_pos hp]
        congr 1
        congr 1
        omega
      | none =>
        simp only [hf]
        have hfc : findByKey p (c :: cs) = some c := by
          unfold findByKey
          rw [List.find?_cons_of_pos _ (by simp [hp])]
        rw [hfc, sumQty_cons, if_pos hp]
    · rw [if_neg hp]
      have hfc : findByKey p (c :: cs) = findByKey p cs := by
        unfold findByKey
        rw [List.find?_cons_of_neg _ (by simp [hp])]
      rw [hfc, sumQty_cons, if_neg hp]
      simp only [Int.zero_add]

lemma mergeInsert_keys_nodup (acc : List Entry) (c : Entry)
    (h : (acc.map mergeKey).Nodup) : ((mergeInsert acc c).map mergeKey).Nodup := by
  unfold mergeInsert
  by_cases hany : (acc.any fun e => mergeKey e = mergeKey c) = true
  · rw [if_pos hany]
    have : (acc.map (fun e =>
        if mergeKey e = mergeKey c then
          { e with addToQuantity := e.addToQuantity + c.addToQuantity }
        else e)).map mergeKey = acc.map mergeKey := by
      rw [List.map_map]
      congr 1
      funext e
      simp only [Function.comp]
      split <;> rfl
    rw [this]
    exact h
  · rw [if_neg hany]
    rw [List.map_append]
    rw [List.nodup_append]
    refine ⟨h, by simp, ?_⟩
    intro k hk
    simp only [List.map_cons, List.map_nil, List.mem_cons, List.not_mem_nil, or_false]
    intro hkc
    rcases List.mem_map.mp hk with ⟨e, he, hke⟩
    apply hany
    rw [List.any_eq_true]
    exact ⟨e, he, by simp [hke, hkc]⟩

lemma mergeEntries_keys_nodup (cards : List Entry) :
    ((mergeEntries cards).map mergeKey).Nodup := by
  unfold mergeEntries
  suffices h : ∀ acc : List Entry, (acc.map mergeKey).Nodup →
      ((cards.foldl mergeInsert acc).map mergeKey).Nodup by
    exact h [] (by simp)
  induction cards with
  | nil => intro acc h; simpa using h
  | cons c cs ih =>
    intro acc h
    rw [List.foldl_cons]
    exact ih _ (mergeInsert_keys_nodup acc c h)

lemma findByKey_self_of_nodup {l : List Entry} (hnd : (l.map mergeKey).Nodup)
    {e : Entry} (he : e ∈ l) : findByKey (mergeKey e) l = some e := by
  induction l with
  | nil => simp at he
  | cons x xs ih =>
    rw [List.map_cons] at hnd
    rcases List.nodup_cons.mp hnd with ⟨hx, hxs⟩
    rcases List.mem_cons.mp he with rfl | hmem
    · unfold findByKey
      rw [List.find?_cons_of_pos _ (by simp)]
    · have hne : ¬(mergeKey x = mergeKey e) := by
        intro hcontra
        apply hx
        rw [hcontra]
        exact List.mem_map.mpr ⟨e, hmem, rfl⟩
      unfold findByKey
      rw [List.find?_cons_of_neg _ (by simp [hne])]
      exact ih hxs hmem

lemma mem_keys_iff_findByKey {l : List Entry} {p : String × String} :
    p ∈ l.map mergeKey ↔ (findByKey p l).isSome = true := by
  rw [findByKey, List.find?_isSome]
  constructor
  · intro h
    rcases List.mem_map.mp h with ⟨e, he, hke⟩
    exact ⟨e, he, by simp [hke]⟩
  · rintro ⟨e, he, hke⟩
    exact List.mem_map.mpr ⟨e, he, by simpa using hke⟩

/-! ## C8 -/

/-- C8: `merge_entries` returns exactly one entry per distinct
('TCGplayer Id', 'Condition') pair occurring in the input — the output
keys are duplicate-free and are exactly the input keys — and each output
entry's 'Add to Quantity' is the sum of 'Add to Quantity' over all input
entries sharing its pair. -/
theorem merge_entries_spec (cards : List Entry) :
    ((mergeEntries cards).map mergeKey).Nodup ∧
    (∀ p, p ∈ (mergeEntries cards).map mergeKey ↔ p ∈ cards.map mergeKey) ∧
    (∀ e ∈ mergeEntries cards,
      e.addToQuantity =
        ((cards.filter (fun c => mergeKey c = mergeKey e)).map
          Entry.addToQuantity).sum) := by
  refine ⟨mergeEntries_keys_nodup cards, ?_, ?_⟩
  · intro p
    rw [mem_keys_iff_findByKey, mem_keys_iff_findByKey]
    unfold mergeEntries
    rw [findByKey_foldl cards [] p]
    cases hf : findByKey p cards with
    | none => simp [findByKey]
    | some c => simp [findByKey]
  · intro e he
    have hfind : findByKey (mergeKey e) (mergeEntries cards) = some e :=
      findByKey_self_of_nodup (mergeEntries_keys_nodup cards) he
    unfold mergeEntries at hfind
    rw [findByKey_foldl cards [] (mergeKey e)] at hfind
    simp only [findByKey, List.find?_nil] at hfind
    cases hf : List.find? (fun c => decide (mergeKey c = mergeKey e)) cards with
    | none =>
      rw [hf] at hfind
      simp at hfind
    | some c =>
      rw [hf] at hfind
      simp only [Option.some.injEq] at hfind
      conv_lhs => rw [← hfind]
      rfl

/-- Witness for C8: three concrete entries, two sharing a key, merge into
two entries with the shared key's quantities summed. -/
theorem merge_entries_spec_witness :
    (((mergeEntries
        [{ tcgplayerId := "1", condition := "NM", addToQuantity := 2 },
         { tcgplayerId := "2", condition := "NM", addToQuantity := 5 },
         { tcgplayerId := "1", condition := "NM", addToQuantity := 3 }]).map
        mergeKey).Nodup) ∧
    (("1", "NM") ∈ (mergeEntries
        [{ tcgplayerId := "1", condition := "NM", addToQuantity := 2 },
         { tcgplayerId := "2", condition := "NM", addToQuantity := 5 },
         { tcgplayerId := "1", condition := "NM", addToQuantity := 3 }]).map mergeKey ↔
      ("1", "NM") ∈ ([{ tcgplayerId := "1", condition := "NM", addToQuantity := 2 },
         { tcgplayerId := "2", condition := "NM", addToQuantity := 5 },
         { tcgplayerId := "1", condition := "NM", addToQuantity := 3 }] : List Entry).map
        mergeKey) ∧
    (∀ e ∈ mergeEntries
        [{ tcgplayerId := "1", condition := "NM", addToQuantity := 2 },
         { tcgplayerId := "2", condition := "NM", addToQuantity := 5 },
         { tcgplayerId := "1", condition := "NM", addToQuantity := 3 }],
      e.addToQuantity =
        ((([{ tcgplayerId := "1", condition := "NM", addToQuantity := 2 },
            { tcgplayerId := "2", condition := "NM", addToQuantity := 5 },
            { tcgplayerId := "1", condition := "NM", addToQuantity := 3 }] :
            List Entry).filter (fun c => mergeKey c = mergeKey e)).map
          Entry.addToQuantity).sum) := by
  have h := merge_entries_spec
    [{ tcgplayerId := "1", condition := "NM", addToQuantity := 2 },
     { tcgplayerId := "2", condition := "NM", addToQuantity := 5 },
     { tcgplayerId := "1", condition := "NM", addToQuantity := 3 }]
  exact ⟨h.1, h.2.1 ("1", "NM"), h.2.2⟩

/-! ## C10: caching lemmas -/

lemma alookup_cons_pos {α β : Type} [DecidableEq α] (a : α) (x : α × β)
    (t : List (α × β)) (h : x.1 = a) : alookup a (x :: t) = some x.2 := by
  obtain ⟨x1, x2⟩ := x
  simp only [alookup]
  rw [if_pos h]

lemma alookup_cons_neg {α β : Type} [DecidableEq α] (a : α) (x : α × β)
    (t : List (α × β)) (h : ¬x.1 = a) : alookup a (x :: t) = alookup a t := by
  obtain ⟨x1, x2⟩ := x
  simp only [alookup]
  rw [if_neg h]

lemma alookup_dictInsert {α β : Type} [DecidableEq α] (l : List (α × β)) (a : α) (b : β) :
    alookup a (dictInsert l a b) = some b := by
  unfold dictInsert
  split
  · rename_i hsome
    induction l with
    | nil => simp [alookup] at hsome
    | cons x xs ih =>
      by_cases hx : x.1 = a
      · rw [List.map_cons, show (if x.1 = a then (a, b) else x) = (a, b) from if_pos hx]
        exact alookup_cons_pos a (a, b) _ rfl
      · rw [List.map_cons, show (if x.1 = a then (a, b) else x) = x from if_neg hx]
        rw [alookup_cons_neg a x _ hx]
        apply ih
        rw [alookup_cons_neg a x xs hx] at hsome
        exact hsome
  · rename_i hnone
    induction l with
    | nil =>
      rw [List.nil_append]
      exact alookup_cons_pos a (a, b) [] rfl
    | cons x xs ih =>
      by_cases hx : x.1 = a
      · exfalso
        apply hnone
        rw [alookup_cons_pos a x xs hx]
        rfl
      · rw [List.cons_append, alookup_cons_neg a x _ hx]
        apply ih
        intro hc
        apply hnone
        rw [alookup_cons_neg a x xs hx]
        exact hc

lemma searchStep_cached (sResp : HttpResult SearchData) (name key : String)
    (cache : ScryCache) (n : Nat) :
    alookup key (queryScrySearchStep sResp name key cache n).2.1 =
      some (queryScrySearchStep sResp name key cache n).1 := by
  unfold queryScrySearchStep
  cases sResp with
  | raised => simp [alookup_dictInsert]
  | resp st body =>
    by_cases hst : st = 200
    · subst hst
      simp only [if_pos rfl]
      cases body with
      | none => simp [alookup_dictInsert]
      | some sd =>
        by_cases hq : 0 < sd.total_cards
        · simp only [if_pos hq]
          cases sd.data.find? (fun c => pyLower c.name = pyLower name) with
          | some c => simp [alookup_dictInsert]
          | none =>
            cases sd.data with
            | nil => simp [alookup_dictInsert]
            | cons c0 t => simp [alookup_dictInsert]
        · simp [if_neg hq, alookup_dictInsert]
    · simp [if_neg hst, alookup_dictInsert]

/-! ## C10 -/

/-- C10: `query_scryfall_card` caches every outcome under the
(card_name, set_code, collector_number) key: a cache hit returns the
stored value — `None` included — with zero remote requests; any call
leaves the cache holding exactly its outcome under that key, so an
immediately repeated call with identical parameters (under any oracle
behavior) returns the cached outcome with zero requests; and the failure
outcomes — a raised exception, a no-match search (total_cards = 0), or a
non-200 final (search) response — all produce `None`, which by the above
is cached and never retried within a run. -/
theorem query_scryfall_card_caching
    (cResp : HttpResult ScryCard) (sResp : HttpResult SearchData)
    (name code : String) (num : Option String) (cache : ScryCache) :
    (alookup (scryCacheKey name code num)
        (queryScryfallCard cResp sResp name code num cache).2.1 =
      some (queryScryfallCard cResp sResp name code num cache).1) ∧
    (∀ v, alookup (scryCacheKey name code num) cache = some v →
      queryScryfallCard cResp sResp name code num cache = (v, cache, 0)) ∧
    (∀ cResp2 sResp2,
      queryScryfallCard cResp2 sResp2 name code num
          (queryScryfallCard cResp sResp name code num cache).2.1 =
        ((queryScryfallCard cResp sResp name code num cache).1,
         (queryScryfallCard cResp sResp name code num cache).2.1, 0)) ∧
    (alookup (scryCacheKey name code num) cache = none →
      (optTruthy num = true → cResp = .raised →
        (queryScryfallCard cResp sResp name code num cache).1 = none) ∧
      (optTruthy num = false → sResp = .raised →
        (queryScryfallCard cResp sResp name code num cache).1 = none) ∧
      (optTruthy num = false → ∀ l, sResp = .resp 200 (some ⟨0, l⟩) →
        (queryScryfallCard cResp sResp name code num cache).1 = none) ∧
      (optTruthy num = false → ∀ st body, st ≠ 200 → sResp = .resp st body →
        (queryScryfallCard cResp sResp name code num cache).1 = none)) := by
  have hcached : alookup (scryCacheKey name code num)
      (queryScryfallCard cResp sResp name code num cache).2.1 =
      some (queryScryfallCard cResp sResp name code num cache).1 := by
    unfold queryScryfallCard
    cases h : alookup (scryCacheKey name code num) cache with
    | some v => simp [h]
    | none =>
      simp only [h]
      by_cases ht : optTruthy num = true
      · simp only [ht, if_pos]
        cases cResp with
        | raised => simp [alookup_dictInsert]
        | resp st body =>
          by_cases hst : st = 200
          · subst hst
            simp only [if_pos rfl]
            cases body with
            | none => simp [alookup_dictInsert]
            | some card => simp [alookup_dictInsert]
          · simp only [if_neg hst]
            exact searchStep_cached sResp name _ cache 1
      · simp only [ht, if_neg, Bool.false_eq_true]
        exact searchStep_cached sResp name _ cache 0
  have hhit : ∀ (c1 : HttpResult ScryCard) (s1 : HttpResult SearchData)
      (cc : ScryCache) (v : Option ScryCard),
      alookup (scryCacheKey name code num) cc = some v →
      queryScryfallCard c1 s1 name code num cc = (v, cc, 0) := by
    intro c1 s1 cc v hv
    unfold queryScryfallCard
    simp only [hv]
  refine ⟨hcached, fun v hv => hhit cResp sResp cache v hv, ?_, ?_⟩
  · intro cResp2 sResp2
    exact hhit cResp2 sResp2 _ _ hcached
  · intro h
    refine ⟨?_, ?_, ?_, ?_⟩
    · intro ht hc
      subst hc
      unfold queryScryfallCard
      simp only [h, ht, if_pos]
    · intro ht hs
      subst hs
      unfold queryScryfallCard
      simp only [h, ht, Bool.false_eq_true, if_false]
      rfl
    · intro ht l hs
      subst hs
      unfold queryScryfallCard
      simp only [h, ht, Bool.false_eq_true, if_false]
      unfold queryScrySearchStep
      simp
    · intro ht st body hst hs
      subst hs
      unfold queryScryfallCard
      simp only [h, ht, Bool.false_eq_true, if_false]
      unfold queryScrySearchStep
      simp [hst]

/-- Witness for C10: a concrete transient failure (raised search request)
stores None under the key, and the repeated call with a would-succeed
oracle still returns the cached None with zero requests. -/
theorem query_scryfall_card_caching_witness :
    (queryScryfallCard HttpResult.raised HttpResult.raised "bolt" "lea" none [] =
      (none, [(scryCacheKey "bolt" "lea" none, none)], 1)) ∧
    (∀ cResp2 sResp2,
      queryScryfallCard cResp2 sResp2 "bolt" "lea" none
          (queryScryfallCard HttpResult.raised HttpResult.raised "bolt" "lea" none []).2.1 =
        ((queryScryfallCard HttpResult.raised HttpResult.raised "bolt" "lea" none []).1,
         (queryScryfallCard HttpResult.raised HttpResult.raised "bolt" "lea" none []).2.1,
         0)) := by
  constructor
  · have h := (query_scryfall_card_caching HttpResult.raised HttpResult.raised
      "bolt" "lea" none []).2.2.2 (by rfl)
    have h2 := h.2.1 (by rfl) rfl
    refine Prod.ext ?_ (Prod.ext ?_ ?_) <;> decide
  · exact (query_scryfall_card_caching HttpResult.raised HttpResult.raised
      "bolt" "lea" none []).2.2.1

/-! ## C3 -/

/-- Oracles modelling a run in which Scryfall finds nothing. -/
def noneById : String → Option ScryCard := fun _ => none

def noneByCard : String → String → Option String → Option ScryCard := fun _ _ _ => none

/-- The reference pool of the C3 scenario: one candidate that scores 140
against the query (same name, different set, different condition), below
every confirmation threshold. -/
def c3db : RefData :=
  [(⟨"aaa", "setx", none, "damaged", ""⟩,
    { productName := "AAA", setName := "SetX", tcgplayerId := "5" })]

/-- The normalized 4-field key of the C3 inventory line. -/
def c3key : Key4 := ⟨"aaa", "sety", none, "near mint"⟩

/-- Counterexample for C3: processing the identical inventory line twice in
one run (same key, never confirmed) appends the same key to the pending
queue twice — `confirm_and_iterate_match` re-enqueues unconditionally, and
the `not any(item[0] == key)` check of process_card lines 185-189 only
guards the given-up fallback, not the enqueue. -/
theorem pending_queue_duplicate_counterexample :
    ((processCard simIfEq noneById noneByCard {} c3db "near mint" "aaa" "sety" {}).bind
        (fun r => processCard simIfEq noneById noneByCard {} r.2.1 "near mint"
          "aaa" "sety" r.2.2)).map
      (fun r => (r.2.2.pendingConfirmations.map (fun it => it.1)).count c3key) =
    some 2 := by
  rfl

/-- C3 (amended): a declined key is appended to the pending queue
unconditionally by `confirm_and_iterate_match` — a key already present in
the queue is appended again whenever a duplicate inventory line re-scores
it and confirmation declines again; the pending-membership check in
process_card guarantees only that no given-up fallback is emitted while
the key is pending. -/
theorem pending_requeue_behavior (key : Key4) (b : Key5 × Int)
    (rest : List (Key5 × Int)) (refData : RefData) (st : PState)
    (hdecline : shouldConfirmB b
      (match rest with | [] => 0 | p :: _ => p.2) refData = false) :
    confirmAndIterateMatch key (b :: rest) refData st =
      some (none, { st with pendingConfirmations :=
        st.pendingConfirmations ++ [(key, b :: rest, refData)] }) ∧
    (∀ (row : ManaboxRow) (cond name setName : String) (db : RefData),
      st.pendingConfirmations.any (fun it => it.1 = key) = true →
      givenUpStep row cond name setName key db st = some (none, db, st)) := by
  constructor
  · simp only [confirmAndIterateMatch]
    rw [if_neg (by simp [hdecline])]
  · intro row cond name setName db hmem
    unfold givenUpStep
    rw [if_pos hmem]

/-- Witness for C3's amended theorem: a state whose pending queue already
holds the key still gets a second copy appended on decline, and the
given-up step leaves that state unchanged. -/
theorem pending_requeue_behavior_witness :
    confirmAndIterateMatch c3key
        [(⟨"aaa", "setx", none, "damaged", ""⟩, 140)] c3db
        { pendingConfirmations := [(c3key, [], [])] } =
      some (none, { pendingConfirmations :=
        [(c3key, [], []),
         (c3key, [(⟨"aaa", "setx", none, "damaged", ""⟩, 140)], c3db)] }) ∧
    givenUpStep {} "near mint" "aaa" "sety" c3key c3db
        { pendingConfirmations := [(c3key, [], [])] } =
      some (none, c3db, { pendingConfirmations := [(c3key, [], [])] }) := by
  have h := pending_requeue_behavior c3key
    (⟨"aaa", "setx", none, "damaged", ""⟩, 140) [] c3db
    { pendingConfirmations := [(c3key, [], [])] } (by decide)
  exact ⟨h.1, h.2 {} "near mint" "aaa" "sety" c3db (by decide)⟩

/-! ## C6 -/

/-- C6: (first conjunct) `process_card` consults the Scryfall oracles only
when local scoring produced no matches or a best score below 260 — when
the ranked list is non-empty with best score at least 260, the result does
not depend on the oracles; (second conjunct) when the remote lookup
succeeds, the row is present, no existing candidate scores 300 or more,
and the fallback-entry builder succeeds, `enhance_matches_with_scryfall`
prepends the synthetic pair (synthetic key, 350), tags the entry with the
'Scryfall Verified' sentinel id, and registers it in the pool so a
subsequent lookup by the synthetic key succeeds. -/
theorem scryfall_enrichment_contract :
    (∀ (sim : String → String → Int)
        (qb qb2 : String → Option ScryCard)
        (qc qc2 : String → String → Option String → Option ScryCard)
        (row : ManaboxRow) (db : RefData) (cond name setName : String)
        (st : PState) (nr : Key5) (b : Key5 × Int) (rest : List (Key5 × Int)),
      normalizeKey name setName cond (extractCardNumber row.collectorNumber) = some nr →
      findBestMatch sim nr.toKey4 db = b :: rest →
      (260 : Int) ≤ b.2 →
      processCard sim qb qc row db cond name setName st =
        processCard sim qb2 qc2 row db cond name setName st) ∧
    (∀ (qb : String → Option ScryCard)
        (qc : String → String → Option String → Option ScryCard)
        (nk : Key5) (ms : List (Key5 × Int)) (refData : RefData)
        (r : ManaboxRow) (card : ScryCard) (entry : Entry),
      scryfallLookupStep qb qc nk (some r) = some card →
      (∀ p ∈ ms, p.2 < 300) →
      createScryfallFallbackEntry card r nk.cond = some entry →
      enhanceMatchesWithScryfall qb qc nk ms refData (some r) =
        some ((nk, 350) :: ms, dictInsert refData nk entry) ∧
      entry.tcgplayerId = "Scryfall Verified" ∧
      alookup nk (dictInsert refData nk entry) = some entry) := by
  constructor
  · intro sim qb qb2 qc qc2 row db cond name setName st nr b rest h1 h2 h3
    unfold processCard
    by_cases hname : name = ""
    · simp [hname]
    · by_cases hset : setName = ""
      · simp [hname, hset]
      · rw [if_neg (by simp [hname, hset]), if_neg (by simp [hname, hset])]
        rw [h1]
        dsimp only
        cases hcm : alookup nr.toKey4 st.confirmedMatches with
        | some cand => rfl
        | none =>
          rw [h2]
          dsimp only
          have hnot : ¬(b.2 < mediumConfidenceScore) :=
            not_lt.mpr (by simpa [mediumConfidenceScore] using h3)
          rw [if_neg hnot, if_neg hnot]
  · intro qb qc nk ms refData r card entry h1 h2 h3
    refine ⟨?_, ?_, alookup_dictInsert refData nk entry⟩
    · unfold enhanceMatchesWithScryfall
      rw [h1]
      cases ms with
      | nil =>
        dsimp only
        rw [h3]
        rfl
      | cons p t =>
        have hp : p.2 < 300 := h2 p (by simp)
        dsimp only
        rw [if_pos (decide_eq_true hp), h3]
        rfl
    · unfold createScryfallFallbackEntry at h3
      cases hqty : pyInt? r.quantity with
      | none => rw [hqty] at h3; simp at h3
      | some qty =>
        rw [hqty] at h3
        simp only [Option.some.injEq] at h3
        rw [← h3]
        rfl

/-- Witness for C6: a 270-scoring pool makes `process_card` oracle-independent
(evaluated with a no-hit and an always-hit oracle pair), and a concrete
empty match list with a remote hit yields the synthesized rank-0 sentinel
candidate registered in the pool. -/
theorem scryfall_enrichment_contract_witness :
    (processCard simIfEq noneById noneByCard {}
        [(⟨"bolt", "alpha", none, "near mint", ""⟩,
          { productName := "Bolt", setName := "Alpha", tcgplayerId := "7" })]
        "near mint" "bolt" "alpha" {} =
      processCard simIfEq (fun _ => some { name := "Other" })
        (fun _ _ _ => some { name := "Other" }) {}
        [(⟨"bolt", "alpha", none, "near mint", ""⟩,
          { productName := "Bolt", setName := "Alpha", tcgplayerId := "7" })]
        "near mint" "bolt" "alpha" {}) ∧
    (enhanceMatchesWithScryfall noneById
        (fun _ _ _ => some { name := "Cardx", set_name := "Setx" })
        ⟨"cardx", "setx", none, "near mint", ""⟩ [] [] (some {}) =
      some ([(⟨"cardx", "setx", none, "near mint", ""⟩, 350)],
        dictInsert [] ⟨"cardx", "setx", none, "near mint", ""⟩
          { tcgplayerId := "Scryfall Verified"
            productLine := "Magic: The Gathering"
            setName := "Setx"
            productName := "Cardx"
            number := ""
            rarity := ""
            condition := "near mint"
            addToQuantity := 1
            tcgMarketplacePrice := "0.10" }) ∧
      alookup ⟨"cardx", "setx", none, "near mint", ""⟩
          (dictInsert ([] : RefData) ⟨"cardx", "setx", none, "near mint", ""⟩
            { tcgplayerId := "Scryfall Verified"
              productLine := "Magic: The Gathering"
              setName := "Setx"
              productName := "Cardx"
              number := ""
              rarity := ""
              condition := "near mint"
              addToQuantity := 1
              tcgMarketplacePrice := "0.10" }) =
        some { tcgplayerId := "Scryfall Verified"
               productLine := "Magic: The Gathering"
               setName := "Setx"
               productName := "Cardx"
               number := ""
               rarity := ""
               condition := "near mint"
               addToQuantity := 1
               tcgMarketplacePrice := "0.10" }) := by
  constructor
  · exact scryfall_enrichment_contract.1 simIfEq noneById
      (fun _ => some { name := "Other" }) noneByCard
      (fun _ _ _ => some { name := "Other" }) {} _ "near mint" "bolt" "alpha" {}
      ⟨"bolt", "alpha", none, "near mint", ""⟩
      (⟨"bolt", "alpha", none, "near mint", ""⟩, 270) []
      (by decide) (by decide) (by norm_num)
  · have h := scryfall_enrichment_contract.2 noneById
      (fun _ _ _ => some { name := "Cardx", set_name := "Setx" })
      ⟨"cardx", "setx", none, "near mint", ""⟩ [] [] {}
      { name := "Cardx", set_name := "Setx" }
      { tcgplayerId := "Scryfall Verified"
        productLine := "Magic: The Gathering"
        setName := "Setx"
        productName := "Cardx"
        number := ""
        rarity := ""
        condition := "near mint"
        addToQuantity := 1
        tcgMarketplacePrice := "0.10" }
      (by decide) (by simp) (by decide)
    exact ⟨h.1, h.2.2⟩

end CardConv
